import Mathlib

/-!
Shallow embedding of `addons/analytic/models/analytic_account.py` (Odoo
analytic accounting models) and proofs about its operations.

Conventions of the embedding:
* monetary amounts and percentages (Python floats) are modelled as `ℚ`;
* record ids (accounts, partners, companies, tags, currencies, users) are `Nat`;
* dates are `Nat` (only their total order is used);
* a Python falsy field value (`False`, empty string, empty recordset) is
  modelled with `Option` / the empty list;
* the external currency conversion service `res.currency.compute` is an
  arbitrary function `convert : Nat → ℚ → ℚ` from the line's currency id and
  amount to the amount in the acting user's company currency;
* the data store's string comparison for `name_search` operators is an
  arbitrary function `opMatch : String → String → String → Bool` taking the
  operator, the stored field value and the query.
-/

namespace Analytic

/-- An element of an Odoo search domain in Polish prefix notation: a leaf
term (a field/operator/value triple, of type `T`) or one of the two logical
connectives this module uses (`'&'` and `'|'`). -/
inductive DElem (T : Type) where
  | term (t : T)
  | opAnd
  | opOr
deriving DecidableEq

/-- One step of the domain evaluator's stack machine.  Odoo's
`osv.expression` parser processes the reversed token list, pushing the
predicate of each leaf and combining the two topmost stack entries on a
connective.  (On a malformed domain Odoo raises; the clause for a short
stack is never reached on the well-formed domains built by this module.) -/
def pushElem {T L : Type} (ev : T → L → Bool) (st : List (L → Bool)) : DElem T → List (L → Bool)
  | DElem.term t => ev t :: st
  | DElem.opAnd =>
      match st with
      | p :: q :: rest => (fun l => p l && q l) :: rest
      | _ => st
  | DElem.opOr =>
      match st with
      | p :: q :: rest => (fun l => p l || q l) :: rest
      | _ => st

/-- The predicate stack left after processing a whole domain. -/
def stackOf {T L : Type} (ev : T → L → Bool) (d : List (DElem T)) : List (L → Bool) :=
  d.reverse.foldl (pushElem ev) []

/-- Whether record `l` satisfies domain `d`: every expression left on the
stack must hold (consecutive top-level expressions of an Odoo domain are
conjoined by an implicit AND). -/
def evalDomain {T L : Type} (ev : T → L → Bool) (d : List (DElem T)) (l : L) : Bool :=
  (stackOf ev d).all fun p => p l

/-- Core loop of `osv.expression.normalize_domain`: walk the token list with
the count `expected` of missing operands, prepending an explicit `'&'` to the
accumulated result whenever a new top-level expression starts. -/
def normCore {T : Type} : List (DElem T) → Nat → List (DElem T) → List (DElem T)
  | [], _, result => result
  | tok :: rest, expected, result =>
      let result' := if expected = 0 then DElem.opAnd :: result else result
      let expected' := if expected = 0 then 1 else expected
      match tok with
      | DElem.term t => normCore rest (expected' - 1) (result' ++ [DElem.term t])
      | DElem.opAnd => normCore rest (expected' + 1) (result' ++ [DElem.opAnd])
      | DElem.opOr => normCore rest (expected' + 1) (result' ++ [DElem.opOr])

/-- `osv.expression.normalize_domain`: make the implicit ANDs of a domain
explicit.  (Odoo maps the empty domain to the trivially true one; the domains
normalized by this module are never empty.) -/
def normalize_domain {T : Type} (d : List (DElem T)) : List (DElem T) :=
  normCore d 1 []

/-- `osv.expression.combine` for the connective `op`: normalize each domain
and chain them with `n - 1` leading operators.  (The unit/zero short-circuit
of the original concerns the constant true/false leaves, which the leaf types
of this module cannot express.) -/
def combine {T : Type} (op : DElem T) (ds : List (List (DElem T))) : List (DElem T) :=
  List.replicate (ds.length - 1) op ++ (ds.map normalize_domain).flatten

/-- `osv.expression.AND`. -/
def exprAND {T : Type} (ds : List (List (DElem T))) : List (DElem T) :=
  combine DElem.opAnd ds

/-- `osv.expression.OR`. -/
def exprOR {T : Type} (ds : List (List (DElem T))) : List (DElem T) :=
  combine DElem.opOr ds

/-- Well-formed single domain expressions in Polish prefix notation. -/
inductive Expr {T : Type} : List (DElem T) → Prop where
  | term (t : T) : Expr [DElem.term t]
  | and {d₁ d₂ : List (DElem T)} : Expr d₁ → Expr d₂ → Expr (DElem.opAnd :: d₁ ++ d₂)
  | or {d₁ d₂ : List (DElem T)} : Expr d₁ → Expr d₂ → Expr (DElem.opOr :: d₁ ++ d₂)

/-- An analytic line (`account.analytic.line`) as read by the balance
aggregator: the fields its domain filters on plus amount and currency. -/
structure ALine where
  account_id : Nat
  amount : ℚ
  currency_id : Nat
  date : Nat
  tag_ids : List Nat
  company_id : Nat
deriving DecidableEq

/-- The leaf terms of the domains built by `_compute_debit_credit_balance`. -/
inductive LTerm where
  | accountIn (ids : List Nat)
  | dateGe (d : Nat)
  | dateLe (d : Nat)
  | tagIn (tag : Nat)
  | companyIn (ids : List Nat)
deriving DecidableEq

/-- Semantics of those leaf terms on a line (`'in'` on the many2many
`tag_ids` means the line carries the given tag). -/
def evalLTerm : LTerm → ALine → Bool
  | LTerm.accountIn ids, l => decide (l.account_id ∈ ids)
  | LTerm.dateGe d, l => decide (d ≤ l.date)
  | LTerm.dateLe d, l => decide (l.date ≤ d)
  | LTerm.tagIn tag, l => decide (tag ∈ l.tag_ids)
  | LTerm.companyIn ids, l => decide (l.company_id ∈ ids)

/-- The context keys read by `_compute_debit_credit_balance`; `none` and `[]`
model the falsy values under which the corresponding branch is skipped. -/
structure Ctx where
  from_date : Option Nat
  to_date : Option Nat
  tag_ids : List Nat
  company_ids : List Nat
deriving DecidableEq

/-- The search domain built by `_compute_debit_credit_balance` (source lines
65–75): account filter, optional date bounds, optional OR-of-tags combined
with `expression.AND`, optional company filter. -/
def balanceDomain (selfIds : List Nat) (ctx : Ctx) : List (DElem LTerm) :=
  let domain := [DElem.term (LTerm.accountIn selfIds)]
  let domain := match ctx.from_date with
    | some d => domain ++ [DElem.term (LTerm.dateGe d)]
    | none => domain
  let domain := match ctx.to_date with
    | some d => domain ++ [DElem.term (LTerm.dateLe d)]
    | none => domain
  let domain := if ctx.tag_ids = [] then domain
    else exprAND [domain, exprOR (ctx.tag_ids.map fun tag => [DElem.term (LTerm.tagIn tag)])]
  let domain := if ctx.company_ids = [] then domain
    else domain ++ [DElem.term (LTerm.companyIn ctx.company_ids)]
  domain

/-- The leaf terms accumulated by the first three steps of the domain build
(account filter and the optional date bounds). -/
def baseTerms (fd td : Option Nat) (selfIds : List Nat) : List LTerm :=
  LTerm.accountIn selfIds ::
    ((match fd with
      | some d => [LTerm.dateGe d]
      | none => []) ++
     (match td with
      | some d => [LTerm.dateLe d]
      | none => []))

/-- The lines returned by the aggregator's `search_read`. -/
def matchedLines (allLines : List ALine) (selfIds : List Nat) (ctx : Ctx) : List ALine :=
  allLines.filter fun l => evalDomain evalLTerm (balanceDomain selfIds ctx) l

/-- One iteration of the accumulation loop of `_compute_debit_credit_balance`
(source lines 84–90): convert the amount and add it to the per-account debit
map when negative, to the credit map otherwise. -/
def balanceStep (convert : Nat → ℚ → ℚ) (acc : (Nat → ℚ) × (Nat → ℚ)) (l : ALine) :
    (Nat → ℚ) × (Nat → ℚ) :=
  let amount := convert l.currency_id l.amount
  if amount < 0 then
    (Function.update acc.1 l.account_id (acc.1 l.account_id + amount), acc.2)
  else
    (acc.1, Function.update acc.2 l.account_id (acc.2 l.account_id + amount))

/-- `AccountAnalyticAccount._compute_debit_credit_balance` (source lines
63–93), observed on one account id of the computed set: filter the lines by
the built domain, accumulate converted amounts into the debit/credit maps,
then read them off as `debit = abs`, `credit`, `balance = credit - debit`
(missing map entries default to `0`). -/
def compute_debit_credit_balance (convert : Nat → ℚ → ℚ) (allLines : List ALine)
    (selfIds : List Nat) (ctx : Ctx) (accountId : Nat) : ℚ × ℚ × ℚ :=
  let account_amounts := matchedLines allLines selfIds ctx
  let data := account_amounts.foldl (balanceStep convert) (fun _ => 0, fun _ => 0)
  let debit := |data.1 accountId|
  let credit := data.2 accountId
  (debit, credit, credit - debit)

/-- The converted amount of a line. -/
def conv (convert : Nat → ℚ → ℚ) (l : ALine) : ℚ :=
  convert l.currency_id l.amount

/-- The converted amounts of the lines of account `a` that convert to a
negative value. -/
def negAmounts (convert : Nat → ℚ → ℚ) (lines : List ALine) (a : Nat) : List ℚ :=
  (lines.filter fun l => decide (l.account_id = a) && decide (conv convert l < 0)).map
    (conv convert)

/-- The converted amounts of the lines of account `a` that convert to a
non-negative value. -/
def posAmounts (convert : Nat → ℚ → ℚ) (lines : List ALine) (a : Nat) : List ℚ :=
  (lines.filter fun l => decide (l.account_id = a) && decide (0 ≤ conv convert l)).map
    (conv convert)

/-- A partner record, with the name of its commercial partner. -/
structure Partner where
  id : Nat
  name : String
  commercial_partner_name : String
deriving DecidableEq

/-- An analytic account (`account.analytic.account`) as used by `name_get`
and `name_search`. -/
structure Account where
  id : Nat
  name : String
  code : Option String
  partner : Option Partner
deriving DecidableEq

/-- Python truthiness of a Char field value: absent or empty is falsy. -/
def truthyStr : Option String → Bool
  | none => false
  | some s => decide (s ≠ "")

/-- `AccountAnalyticAccount.name_get` (source lines 115–124), for one record
of the set. -/
def name_get (a : Account) : Nat × String :=
  let nm := a.name
  let nm := if truthyStr a.code then "[" ++ a.code.getD "" ++ "] " ++ nm else nm
  let nm := match a.partner with
    | some p => nm ++ " - " ++ p.commercial_partner_name
    | none => nm
  (a.id, nm)

/-- The leaf terms of the domain built by `name_search`. -/
inductive ATerm where
  | codeMatch (operator q : String)
  | nameMatch (operator q : String)
  | partnerIn (ids : List Nat)
deriving DecidableEq

/-- Semantics of those leaf terms on an account; a NULL `code` or partner
matches nothing. -/
def evalATerm (opMatch : String → String → String → Bool) : ATerm → Account → Bool
  | ATerm.codeMatch operator q, a =>
      match a.code with
      | some c => opMatch operator c q
      | none => false
  | ATerm.nameMatch operator q, a => opMatch operator a.name q
  | ATerm.partnerIn ids, a =>
      match a.partner with
      | some p => decide (p.id ∈ ids)
      | none => false

/-- Outcome of `name_search`: either the call was delegated to the default
implementation of the framework (`super().name_search`), or it returned the
`name_get` pairs of the records found. -/
inductive NameSearchResult where
  | delegated
  | found (res : List (Nat × String))
deriving DecidableEq

/-- `AccountAnalyticAccount.name_search` (source lines 127–136).  `accounts`
and `allPartners` are the stored records, `nm` the query, `args` an extra
domain conjoined by the caller. -/
def name_search (opMatch : String → String → String → Bool)
    (accounts : List Account) (allPartners : List Partner)
    (nm : String) (args : List (DElem ATerm)) (operator : String) (limit : Nat) :
    NameSearchResult :=
  if operator ∉ ["ilike", "like", "=", "=like", "=ilike"] then NameSearchResult.delegated
  else
    let domain := [DElem.opOr, DElem.term (ATerm.codeMatch operator nm),
      DElem.term (ATerm.nameMatch operator nm)]
    let partners := (allPartners.filter fun p => opMatch operator p.name nm).take limit
    let domain := if partners = [] then domain
      else [DElem.opOr] ++ domain ++ [DElem.term (ATerm.partnerIn (partners.map Partner.id))]
    let recs := (accounts.filter fun a => evalDomain (evalATerm opMatch) (domain ++ args) a).take limit
    NameSearchResult.found (recs.map name_get)

/-- The record predicate `name_search` effectively searches with: the code
matches, or the name matches, or the account's partner is among the partners
whose name matches (the partner sub-lookup, itself capped at `limit`). -/
def nameSearchMatch (opMatch : String → String → String → Bool)
    (allPartners : List Partner) (nm operator : String) (limit : Nat) (a : Account) : Bool :=
  let partners := (allPartners.filter fun p => opMatch operator p.name nm).take limit
  (match a.code with
    | some c => opMatch operator c nm
    | none => false)
  || opMatch operator a.name nm
  || (match a.partner with
    | some p => decide (p.id ∈ partners.map Partner.id)
    | none => false)

/-- An analytic group (`account.analytic.group`): a name and an optional
parent, i.e. a node of a tree. -/
inductive Group where
  | root (nm : String)
  | child (nm : String) (parent : Group)
deriving DecidableEq

/-- `AccountAnalyticGroup._compute_complete_name` (source lines 49–54): the
stored `complete_name` as recomputed along the dependency
`parent_id.complete_name`. -/
def compute_complete_name : Group → String
  | Group.root nm => nm
  | Group.child nm p => compute_complete_name p ++ " / " ++ nm

/-- An analytic line as seen by the company constraint: its own (required)
company and the (optional) company of its account. -/
structure CLine where
  company_id : Nat
  account_company_id : Option Nat
deriving DecidableEq

/-- `AccountAnalyticLine._check_company_id` (source lines 161–165): raise a
`ValidationError` on the first line whose account has a company set that
differs from the line's company. -/
def check_company_id : List CLine → Except String Unit
  | [] => Except.ok ()
  | l :: rest =>
      match l.account_company_id with
      | some c =>
          if l.company_id ≠ c then
            Except.error "ValidationError: the selected account belongs to another company"
          else check_company_id rest
      | none => check_company_id rest

/-- A create or write of analytic lines: the framework runs the
`api.constrains` check after the mutation and aborts (rolls back) on a
`ValidationError`. -/
def write_lines (lines : List CLine) : Except String (List CLine) :=
  match check_company_id lines with
  | Except.ok _ => Except.ok lines
  | Except.error e => Except.error e

/-- An analytic distribution record (`account.analytic.distribution`). -/
structure Distribution where
  account_id : Nat
  percentage : ℚ
  tag_id : Nat
deriving DecidableEq

/-- The SQL constraint `check_percentage` (source lines 18–21):
`CHECK(percentage >= 0 AND percentage <= 100)`. -/
def check_percentage (p : ℚ) : Bool :=
  decide (0 ≤ p) && decide (p ≤ 100)

/-- `create` on `account.analytic.distribution`: the data store enforces the
percentage check and rejects the row otherwise. -/
def create_distribution (account_id : Nat) (p : ℚ) (tag_id : Nat) : Except String Distribution :=
  if check_percentage p then Except.ok ⟨account_id, p, tag_id⟩
  else Except.error "The percentage of an analytic distribution should be between 0 and 100."

/-- `AccountAnalyticLine._default_user` (source lines 144–146):
`self.env.context.get('user_id', self.env.user.id)`. -/
def default_user (ctx_user_id : Option Nat) (env_user_id : Nat) : Nat :=
  ctx_user_id.getD env_user_id

/-- The `user_id` value of a newly created line (source line 154): the
explicit value when one is passed, the field default otherwise. -/
def create_line_user (explicit_user : Option Nat) (ctx_user_id : Option Nat)
    (env_user_id : Nat) : Nat :=
  match explicit_user with
  | some u => u
  | none => default_user ctx_user_id env_user_id

/-! ### Lemmas about the domain evaluator -/

/-- Processing a well-formed expression pushes exactly its predicate onto any
starting stack. -/
theorem stack_run {T L : Type} (ev : T → L → Bool) {d : List (DElem T)} (hd : Expr d)
    (st : List (L → Bool)) :
    d.reverse.foldl (pushElem ev) st = (fun l => evalDomain ev d l) :: st := by
  induction hd generalizing st with
  | term t =>
      have h : (fun l => evalDomain ev [DElem.term t] l) = ev t := by
        funext l
        simp [evalDomain, stackOf, pushElem]
      simp [pushElem, h]
  | @and d₁ d₂ h₁ h₂ ih₁ ih₂ =>
      have key : ∀ s : List (L → Bool),
          (DElem.opAnd :: d₁ ++ d₂).reverse.foldl (pushElem ev) s
            = (fun l => evalDomain ev d₁ l && evalDomain ev d₂ l) :: s := by
        intro s
        simp only [List.reverse_cons, List.reverse_append, List.foldl_append,
          List.foldl_cons, List.foldl_nil]
        rw [ih₂, ih₁]
        rfl
      have h : (fun l => evalDomain ev (DElem.opAnd :: d₁ ++ d₂) l)
          = fun l => evalDomain ev d₁ l && evalDomain ev d₂ l := by
        funext l
        unfold evalDomain stackOf
        rw [key]
        simp [evalDomain, stackOf]
      rw [key, h]
  | @or d₁ d₂ h₁ h₂ ih₁ ih₂ =>
      have key : ∀ s : List (L → Bool),
          (DElem.opOr :: d₁ ++ d₂).reverse.foldl (pushElem ev) s
            = (fun l => evalDomain ev d₁ l || evalDomain ev d₂ l) :: s := by
        intro s
        simp only [List.reverse_cons, List.reverse_append, List.foldl_append,
          List.foldl_cons, List.foldl_nil]
        rw [ih₂, ih₁]
        rfl
      have h : (fun l => evalDomain ev (DElem.opOr :: d₁ ++ d₂) l)
          = fun l => evalDomain ev d₁ l || evalDomain ev d₂ l := by
        funext l
        unfold evalDomain stackOf
        rw [key]
        simp [evalDomain, stackOf]
      rw [key, h]

/-- A single leaf evaluates to its term's predicate. -/
theorem evalDomain_term {T L : Type} (ev : T → L → Bool) (t : T) (l : L) :
    evalDomain ev [DElem.term t] l = ev t l := by
  simp [evalDomain, stackOf, pushElem]

/-- Appending after a well-formed expression leaves its predicate on top of
the rest's stack. -/
theorem stackOf_append_expr {T L : Type} (ev : T → L → Bool) {e : List (DElem T)}
    (he : Expr e) (d : List (DElem T)) :
    stackOf ev (e ++ d) = (fun l => evalDomain ev e l) :: stackOf ev d := by
  unfold stackOf
  rw [List.reverse_append, List.foldl_append, stack_run ev he]

/-- The implicit AND between a leading well-formed expression and the rest of
a domain. -/
theorem evalDomain_append_expr {T L : Type} (ev : T → L → Bool) {e : List (DElem T)}
    (he : Expr e) (d : List (DElem T)) (l : L) :
    evalDomain ev (e ++ d) l = (evalDomain ev e l && evalDomain ev d l) := by
  unfold evalDomain
  rw [stackOf_append_expr ev he, List.all_cons]
  simp [evalDomain]

/-- Evaluation of an explicit AND of two well-formed expressions. -/
theorem evalDomain_and_expr {T L : Type} (ev : T → L → Bool) {d₁ d₂ : List (DElem T)}
    (h₁ : Expr d₁) (h₂ : Expr d₂) (l : L) :
    evalDomain ev (DElem.opAnd :: d₁ ++ d₂) l
      = (evalDomain ev d₁ l && evalDomain ev d₂ l) := by
  unfold evalDomain stackOf
  simp only [List.reverse_cons, List.reverse_append, List.foldl_append, List.foldl_cons,
    List.foldl_nil]
  rw [stack_run ev h₂, stack_run ev h₁]
  simp [pushElem, evalDomain, stackOf]

/-- Evaluation of an explicit OR of two well-formed expressions. -/
theorem evalDomain_or_expr {T L : Type} (ev : T → L → Bool) {d₁ d₂ : List (DElem T)}
    (h₁ : Expr d₁) (h₂ : Expr d₂) (l : L) :
    evalDomain ev (DElem.opOr :: d₁ ++ d₂) l
      = (evalDomain ev d₁ l || evalDomain ev d₂ l) := by
  unfold evalDomain stackOf
  simp only [List.reverse_cons, List.reverse_append, List.foldl_append, List.foldl_cons,
    List.foldl_nil]
  rw [stack_run ev h₂, stack_run ev h₁]
  simp [pushElem, evalDomain, stackOf]

/-- A list of leaves evaluates (by implicit AND) to the conjunction of its
term predicates. -/
theorem evalDomain_terms {T L : Type} (ev : T → L → Bool) (ts : List T) (l : L) :
    evalDomain ev (ts.map DElem.term) l = ts.all fun t => ev t l := by
  induction ts with
  | nil => rfl
  | cons t rest ih =>
      have h : (t :: rest).map (DElem.term (T := T)) = [DElem.term t] ++ rest.map DElem.term :=
        rfl
      rw [h, evalDomain_append_expr ev (Expr.term t), evalDomain_term, ih, List.all_cons]

/-- Shape algebra: a left-associated operator chain over one more leaf. -/
theorem replicate_op_shape {T : Type} (op : DElem T) (a t : T) (as : List T) :
    List.replicate ((a :: as ++ [t]).length - 1) op ++ (a :: as ++ [t]).map DElem.term
      = op :: (List.replicate ((a :: as).length - 1) op ++ (a :: as).map DElem.term)
        ++ [DElem.term t] := by
  simp [List.replicate_succ, List.map_append, List.append_assoc]

/-- The OR chain produced by `expression.OR` over `n` leaves is a well-formed
expression. -/
theorem expr_replicate_or {T : Type} (ts : List T) :
    ts ≠ [] →
    Expr (List.replicate (ts.length - 1) (DElem.opOr : DElem T) ++ ts.map DElem.term) := by
  induction ts using List.reverseRecOn with
  | nil => intro h; exact absurd rfl h
  | append_singleton ts t ih =>
      intro _
      cases ts with
      | nil => simpa using Expr.term t
      | cons a as =>
          rw [replicate_op_shape]
          exact Expr.or (ih (by simp)) (Expr.term t)

/-- The AND chain produced by normalization over `n` leaves is a well-formed
expression. -/
theorem expr_replicate_and {T : Type} (ts : List T) :
    ts ≠ [] →
    Expr (List.replicate (ts.length - 1) (DElem.opAnd : DElem T) ++ ts.map DElem.term) := by
  induction ts using List.reverseRecOn with
  | nil => intro h; exact absurd rfl h
  | append_singleton ts t ih =>
      intro _
      cases ts with
      | nil => simpa using Expr.term t
      | cons a as =>
          rw [replicate_op_shape]
          exact Expr.and (ih (by simp)) (Expr.term t)

/-- An OR chain over leaves evaluates to the disjunction of the leaves. -/
theorem evalDomain_replicate_or {T L : Type} (ev : T → L → Bool) (ts : List T) (l : L) :
    ts ≠ [] →
    evalDomain ev (List.replicate (ts.length - 1) DElem.opOr ++ ts.map DElem.term) l
      = ts.any fun t => ev t l := by
  induction ts using List.reverseRecOn with
  | nil => intro h; exact absurd rfl h
  | append_singleton ts t ih =>
      intro _
      cases ts with
      | nil => simpa using evalDomain_term ev t l
      | cons a as =>
          rw [replicate_op_shape,
            evalDomain_or_expr ev (expr_replicate_or (a :: as) (by simp)) (Expr.term t),
            ih (by simp), evalDomain_term]
          simp [Bool.or_assoc]

/-- An AND chain over leaves evaluates to the conjunction of the leaves. -/
theorem evalDomain_replicate_and {T L : Type} (ev : T → L → Bool) (ts : List T) (l : L) :
    ts ≠ [] →
    evalDomain ev (List.replicate (ts.length - 1) DElem.opAnd ++ ts.map DElem.term) l
      = ts.all fun t => ev t l := by
  induction ts using List.reverseRecOn with
  | nil => intro h; exact absurd rfl h
  | append_singleton ts t ih =>
      intro _
      cases ts with
      | nil => simpa using evalDomain_term ev t l
      | cons a as =>
          rw [replicate_op_shape,
            evalDomain_and_expr ev (expr_replicate_and (a :: as) (by simp)) (Expr.term t),
            ih (by simp), evalDomain_term]
          simp [Bool.and_assoc]

/-! ### Lemmas about normalize_domain and the combiners -/

/-- Running the normalization core over exactly `e` missing leaves copies
them unchanged. -/
theorem normCore_terms {T : Type} (ts : List T) :
    ∀ (e : Nat) (acc : List (DElem T)), ts.length = e →
      normCore (ts.map DElem.term) e acc = acc ++ ts.map DElem.term := by
  induction ts with
  | nil =>
      intro e acc h
      simp [normCore]
  | cons t rest ih =>
      intro e acc h
      subst h
      simp only [List.map_cons, List.length_cons, normCore, Nat.succ_ne_zero, if_false,
        Nat.add_sub_cancel]
      rw [ih rest.length (acc ++ [DElem.term t]) rfl]
      simp

/-- Running the normalization core over an operator chain followed by its
leaves copies everything unchanged. -/
theorem normCore_ops_or {T : Type} (k : Nat) :
    ∀ (e : Nat) (ts : List T) (acc : List (DElem T)), 1 ≤ e → ts.length = e + k →
      normCore (List.replicate k DElem.opOr ++ ts.map DElem.term) e acc
        = acc ++ List.replicate k DElem.opOr ++ ts.map DElem.term := by
  induction k with
  | zero =>
      intro e ts acc he h
      simpa [List.append_assoc] using normCore_terms ts e acc (by simpa using h)
  | succ k ih =>
      intro e ts acc he h
      have he0 : ¬ e = 0 := by omega
      simp only [List.replicate_succ, List.cons_append, normCore, he0, if_false,
        List.append_eq]
      rw [ih (e + 1) ts (acc ++ [DElem.opOr]) (by omega) (by omega)]
      simp [List.replicate_succ, List.append_assoc]

/-- The normalization core started with no missing leaf prepends an explicit
AND for every new top-level leaf. -/
theorem normCore_terms_zero {T : Type} (ts : List T) :
    ∀ acc : List (DElem T), ts ≠ [] →
      normCore (ts.map DElem.term) 0 acc
        = List.replicate ts.length DElem.opAnd ++ acc ++ ts.map DElem.term := by
  induction ts with
  | nil => intro acc h; exact absurd rfl h
  | cons t rest ih =>
      intro acc _
      cases rest with
      | nil => simp [normCore]
      | cons b bs =>
          have step : normCore ((t :: b :: bs).map DElem.term) 0 acc
              = normCore ((b :: bs).map DElem.term) 0 ((DElem.opAnd :: acc) ++ [DElem.term t]) :=
            rfl
          rw [step, ih ((DElem.opAnd :: acc) ++ [DElem.term t]) (by simp)]
          simp [List.replicate_succ', List.append_assoc, List.cons_append]

/-- `normalize_domain` on a plain list of leaves makes the implicit ANDs
explicit: `n - 1` leading `'&'` tokens. -/
theorem normalize_terms {T : Type} (ts : List T) (h : ts ≠ []) :
    normalize_domain (ts.map DElem.term)
      = List.replicate (ts.length - 1) DElem.opAnd ++ ts.map DElem.term := by
  cases ts with
  | nil => exact absurd rfl h
  | cons t rest =>
      unfold normalize_domain
      have step : normCore ((t :: rest).map DElem.term) 1 []
          = normCore (rest.map DElem.term) 0 [DElem.term t] := rfl
      rw [step]
      cases rest with
      | nil => simp [normCore]
      | cons b bs =>
          rw [normCore_terms_zero (b :: bs) _ (by simp)]
          simp [List.replicate_succ, List.append_assoc]

/-- `normalize_domain` is the identity on an OR chain (it is already
normalized). -/
theorem normalize_replicate_or {T : Type} (ts : List T) (h : ts ≠ []) :
    normalize_domain (List.replicate (ts.length - 1) DElem.opOr ++ ts.map DElem.term)
      = List.replicate (ts.length - 1) DElem.opOr ++ ts.map DElem.term := by
  have hlen : 1 ≤ ts.length := List.length_pos.mpr h
  unfold normalize_domain
  rw [normCore_ops_or (ts.length - 1) 1 ts [] (le_refl 1) (by omega)]
  simp

/-- `expression.OR` over singleton term domains is the OR chain of the
terms. -/
theorem exprOR_singletons {T : Type} (xs : List T) :
    exprOR (xs.map fun x => [DElem.term x])
      = List.replicate (xs.length - 1) DElem.opOr ++ xs.map DElem.term := by
  unfold exprOR combine
  congr 1
  · simp
  · induction xs with
    | nil => rfl
    | cons x rest ih =>
        simpa [normalize_domain, normCore] using ih

/-- `expression.AND` of a plain leaf domain and an OR chain. -/
theorem exprAND_terms_or {T : Type} (ts us : List T) (h0 : ts ≠ []) (h1 : us ≠ []) :
    exprAND [ts.map DElem.term,
        List.replicate (us.length - 1) DElem.opOr ++ us.map DElem.term]
      = DElem.opAnd :: (List.replicate (ts.length - 1) DElem.opAnd ++ ts.map DElem.term)
        ++ (List.replicate (us.length - 1) DElem.opOr ++ us.map DElem.term) := by
  unfold exprAND combine
  simp [normalize_terms ts h0, normalize_replicate_or us h1, List.append_assoc,
    List.replicate_one]

/-- Evaluation of `expression.AND [leaf domain, expression.OR of singleton
tag domains]`, the combination built in the tag branch of the aggregator. -/
theorem evalDomain_AND_terms_orTags {T L : Type} (ev : T → L → Bool)
    (ts us : List T) (h0 : ts ≠ []) (h1 : us ≠ []) (l : L) :
    evalDomain ev (exprAND [ts.map DElem.term, exprOR (us.map fun u => [DElem.term u])]) l
      = ((ts.all fun t => ev t l) && us.any fun u => ev u l) := by
  rw [exprOR_singletons, exprAND_terms_or ts us h0 h1,
    evalDomain_and_expr ev (expr_replicate_and ts h0) (expr_replicate_or us h1),
    evalDomain_replicate_and ev ts l h0, evalDomain_replicate_or ev us l h1]

/-- The AND combination of the tag branch is a well-formed expression, so
further terms can be appended after it. -/
theorem expr_AND_terms_orTags {T : Type} (ts us : List T) (h0 : ts ≠ []) (h1 : us ≠ []) :
    Expr (exprAND [ts.map DElem.term, exprOR (us.map fun u => [DElem.term u])]) := by
  rw [exprOR_singletons, exprAND_terms_or ts us h0 h1]
  exact Expr.and (expr_replicate_and ts h0) (expr_replicate_or us h1)

/-- Implicit AND between a leading list of leaves and the rest of a domain. -/
theorem evalDomain_terms_append {T L : Type} (ev : T → L → Bool) (ts : List T)
    (d : List (DElem T)) (l : L) :
    evalDomain ev (ts.map DElem.term ++ d) l
      = ((ts.all fun t => ev t l) && evalDomain ev d l) := by
  induction ts with
  | nil => simp
  | cons t rest ih =>
      have h : ((t :: rest).map DElem.term ++ d)
          = [DElem.term t] ++ (rest.map DElem.term ++ d) := by simp
      rw [h, evalDomain_append_expr ev (Expr.term t), evalDomain_term, ih, List.all_cons,
        Bool.and_assoc]

/-- Disjunction over mapped tag leaves, elementwise. -/
theorem any_tagIn (tags : List Nat) (l : ALine) :
    ((tags.map LTerm.tagIn).any fun u => evalLTerm u l)
      = tags.any fun tag => decide (tag ∈ l.tag_ids) := by
  induction tags with
  | nil => rfl
  | cons a as iha =>
      rw [List.map_cons, List.any_cons, List.any_cons, iha]
      rfl

/-- The domain chunk built by the tag branch of the aggregator, in terms of
the generic lemmas. -/
theorem evalDomain_balance_tagAND (ts : List LTerm) (h0 : ts ≠ []) (tags : List Nat)
    (h1 : tags ≠ []) (l : ALine) :
    evalDomain evalLTerm
        (exprAND [ts.map DElem.term, exprOR (tags.map fun tag => [DElem.term (LTerm.tagIn tag)])]) l
      = ((ts.all fun t => evalLTerm t l) && tags.any fun tag => decide (tag ∈ l.tag_ids)) := by
  have hmap : (tags.map fun tag => [DElem.term (LTerm.tagIn tag)])
      = (tags.map LTerm.tagIn).map fun u => [DElem.term u] := by
    simp [List.map_map]
  rw [hmap,
    evalDomain_AND_terms_orTags evalLTerm ts (tags.map LTerm.tagIn) h0 (by simpa using h1) l]
  rw [any_tagIn]

/-- Same chunk, seen as a well-formed expression. -/
theorem expr_balance_tagAND (ts : List LTerm) (h0 : ts ≠ []) (tags : List Nat)
    (h1 : tags ≠ []) :
    Expr (exprAND
        [ts.map DElem.term, exprOR (tags.map fun tag => [DElem.term (LTerm.tagIn tag)])]) := by
  have hmap : (tags.map fun tag => [DElem.term (LTerm.tagIn tag)])
      = (tags.map LTerm.tagIn).map fun u => [DElem.term u] := by
    simp [List.map_map]
  rw [hmap]
  exact expr_AND_terms_orTags ts (tags.map LTerm.tagIn) h0 (by simpa using h1)

/-- The built balance domain, written over `baseTerms`. -/
theorem balanceDomain_eq (selfIds : List Nat) (fd td : Option Nat) (tags comps : List Nat) :
    balanceDomain selfIds ⟨fd, td, tags, comps⟩
      = (let d0 := (baseTerms fd td selfIds).map DElem.term
         let d1 := if tags = [] then d0
           else exprAND [d0, exprOR (tags.map fun tag => [DElem.term (LTerm.tagIn tag)])]
         if comps = [] then d1 else d1 ++ [DElem.term (LTerm.companyIn comps)]) := by
  cases fd <;> cases td <;> rfl

/-- Conjunction over the base leaf terms, as a proposition. -/
theorem baseTerms_all (fd td : Option Nat) (selfIds : List Nat) (l : ALine) :
    (((baseTerms fd td selfIds).all fun t => evalLTerm t l) = true) ↔
      (l.account_id ∈ selfIds
        ∧ (∀ d, fd = some d → d ≤ l.date)
        ∧ (∀ d, td = some d → l.date ≤ d)) := by
  cases fd <;> cases td <;> simp [baseTerms, evalLTerm]

/-- Claim C7: the balance aggregator builds its line filter as the
conjunction of account membership, the optional date lower and upper bounds,
a disjunction over the given tags, and optional company membership. -/
theorem balanceDomain_spec (selfIds : List Nat) (ctx : Ctx) (l : ALine) :
    evalDomain evalLTerm (balanceDomain selfIds ctx) l = true ↔
      (l.account_id ∈ selfIds
        ∧ (∀ d, ctx.from_date = some d → d ≤ l.date)
        ∧ (∀ d, ctx.to_date = some d → l.date ≤ d)
        ∧ (ctx.tag_ids ≠ [] → ∃ t ∈ ctx.tag_ids, t ∈ l.tag_ids)
        ∧ (ctx.company_ids ≠ [] → l.company_id ∈ ctx.company_ids)) := by
  obtain ⟨fd, td, tags, comps⟩ := ctx
  rw [balanceDomain_eq]
  rcases eq_or_ne tags [] with htag | htag <;> rcases eq_or_ne comps [] with hcomp | hcomp
  · simp only [if_pos htag, if_pos hcomp]
    rw [evalDomain_terms, baseTerms_all]
    simp [htag, hcomp]
  · simp only [if_pos htag, if_neg hcomp]
    rw [evalDomain_terms_append, evalDomain_term, Bool.and_eq_true, baseTerms_all]
    simp [htag, hcomp, evalLTerm]
    tauto
  · simp only [if_neg htag, if_pos hcomp]
    rw [evalDomain_balance_tagAND (baseTerms fd td selfIds) (by simp [baseTerms]) tags htag,
      Bool.and_eq_true, baseTerms_all]
    simp [htag, hcomp, List.any_eq_true]
    tauto
  · simp only [if_neg htag, if_neg hcomp]
    rw [evalDomain_append_expr evalLTerm
        (expr_balance_tagAND (baseTerms fd td selfIds) (by simp [baseTerms]) tags htag),
      evalDomain_balance_tagAND (baseTerms fd td selfIds) (by simp [baseTerms]) tags htag,
      evalDomain_term, Bool.and_eq_true, Bool.and_eq_true, baseTerms_all]
    simp [htag, hcomp, evalLTerm, List.any_eq_true]
    tauto
/-! ### Lemmas about the accumulation loop -/

/-- The debit map after the loop holds, per account, the sum of the negative
converted amounts of its lines (on top of the initial value). -/
theorem balance_fold_fst (convert : Nat → ℚ → ℚ) (lines : List ALine) (a : Nat) :
    ∀ init : (Nat → ℚ) × (Nat → ℚ),
      (lines.foldl (balanceStep convert) init).1 a
        = init.1 a + (negAmounts convert lines a).sum := by
  induction lines with
  | nil =>
      intro init
      simp [negAmounts]
  | cons l rest ih =>
      intro init
      rw [List.foldl_cons, ih]
      by_cases hc : convert l.currency_id l.amount < 0
      · by_cases ha : l.account_id = a
        · simp only [balanceStep, if_pos hc, negAmounts, conv, List.filter_cons, ha, hc]
          simp [Function.update_apply, add_assoc, conv]
        · have ha' : ¬ a = l.account_id := fun h => ha h.symm
          simp only [balanceStep, if_pos hc, negAmounts, conv, List.filter_cons, hc]
          simp [Function.update_apply, ha, ha', negAmounts, conv]
      · simp only [balanceStep, if_neg hc, negAmounts, conv, List.filter_cons, hc]
        simp [negAmounts, conv]

/-- The credit map after the loop holds, per account, the sum of the
non-negative converted amounts of its lines (on top of the initial value). -/
theorem balance_fold_snd (convert : Nat → ℚ → ℚ) (lines : List ALine) (a : Nat) :
    ∀ init : (Nat → ℚ) × (Nat → ℚ),
      (lines.foldl (balanceStep convert) init).2 a
        = init.2 a + (posAmounts convert lines a).sum := by
  induction lines with
  | nil =>
      intro init
      simp [posAmounts]
  | cons l rest ih =>
      intro init
      rw [List.foldl_cons, ih]
      by_cases hc : convert l.currency_id l.amount < 0
      · have hc' : ¬ 0 ≤ convert l.currency_id l.amount := not_le.mpr hc
        simp only [balanceStep, if_pos hc, posAmounts, conv, List.filter_cons, hc']
        simp [posAmounts, conv]
      · have hc' : 0 ≤ convert l.currency_id l.amount := not_lt.mp hc
        by_cases ha : l.account_id = a
        · simp only [balanceStep, if_neg hc, posAmounts, conv, List.filter_cons, ha, hc']
          simp [Function.update_apply, add_assoc, conv]
        · have ha' : ¬ a = l.account_id := fun h => ha h.symm
          simp only [balanceStep, if_neg hc, posAmounts, conv, List.filter_cons, hc']
          simp [Function.update_apply, ha, ha', posAmounts, conv]

/-- Claim C1: for every set of accounts and matching analytic lines,
`_compute_debit_credit_balance` sets each account's debit to the absolute
value of the sum of the negative currency-converted line amounts, credit to
the sum of the non-negative converted amounts, and balance to credit minus
debit; in particular, for an account with converted line amounts -50 and 30,
debit = 50, credit = 30, balance = -20. -/
theorem compute_debit_credit_balance_spec :
    (∀ (convert : Nat → ℚ → ℚ) (allLines : List ALine) (selfIds : List Nat) (ctx : Ctx)
        (a : Nat),
      compute_debit_credit_balance convert allLines selfIds ctx a
        = (|(negAmounts convert (matchedLines allLines selfIds ctx) a).sum|,
           (posAmounts convert (matchedLines allLines selfIds ctx) a).sum,
           (posAmounts convert (matchedLines allLines selfIds ctx) a).sum
             - |(negAmounts convert (matchedLines allLines selfIds ctx) a).sum|))
    ∧ compute_debit_credit_balance (fun _ q => q)
        [⟨1, -50, 7, 1, [], 9⟩, ⟨1, 30, 7, 1, [], 9⟩] [1] ⟨none, none, [], []⟩ 1
      = (50, 30, -20) := by
  constructor
  · intro convert allLines selfIds ctx a
    simp only [compute_debit_credit_balance]
    rw [balance_fold_fst, balance_fold_snd]
    norm_num
  · have hm : matchedLines [⟨1, -50, 7, 1, [], 9⟩, ⟨1, 30, 7, 1, [], 9⟩] [1]
        ⟨none, none, [], []⟩ = [⟨1, -50, 7, 1, [], 9⟩, ⟨1, 30, 7, 1, [], 9⟩] := by
      decide
    simp only [compute_debit_credit_balance]
    rw [balance_fold_fst, balance_fold_snd, hm]
    norm_num [negAmounts, posAmounts, conv]

/-- Claim C8: an account of the computed set with no matching analytic lines
gets debit = 0, credit = 0 and balance = 0. -/
theorem compute_debit_credit_balance_no_lines (convert : Nat → ℚ → ℚ)
    (allLines : List ALine) (selfIds : List Nat) (ctx : Ctx) (a : Nat)
    (h : ∀ l ∈ matchedLines allLines selfIds ctx, l.account_id ≠ a) :
    compute_debit_credit_balance convert allLines selfIds ctx a = (0, 0, 0) := by
  have hneg : negAmounts convert (matchedLines allLines selfIds ctx) a = [] := by
    unfold negAmounts
    rw [List.map_eq_nil_iff, List.filter_eq_nil_iff]
    intro l hl
    simp [h l hl]
  have hpos : posAmounts convert (matchedLines allLines selfIds ctx) a = [] := by
    unfold posAmounts
    rw [List.map_eq_nil_iff, List.filter_eq_nil_iff]
    intro l hl
    simp [h l hl]
  simp only [compute_debit_credit_balance]
  rw [balance_fold_fst, balance_fold_snd, hneg, hpos]
  norm_num

/-- Witness for claim C8 at a concrete input: a single stored line of another
account, so the computed account matches no line. -/
theorem compute_debit_credit_balance_no_lines_witness :
    (∀ l ∈ matchedLines [⟨2, 5, 7, 1, [], 9⟩] [1] ⟨none, none, [], []⟩, l.account_id ≠ 1)
    ∧ compute_debit_credit_balance (fun _ q => q) [⟨2, 5, 7, 1, [], 9⟩] [1]
        ⟨none, none, [], []⟩ 1 = (0, 0, 0) :=
  ⟨by decide,
   compute_debit_credit_balance_no_lines (fun _ q => q) [⟨2, 5, 7, 1, [], 9⟩] [1]
     ⟨none, none, [], []⟩ 1 (by decide)⟩

/-- Claim C9: after `_compute_debit_credit_balance` runs, debit and credit
are non-negative for every input set of lines and every conversion. -/
theorem compute_debit_credit_balance_nonneg (convert : Nat → ℚ → ℚ)
    (allLines : List ALine) (selfIds : List Nat) (ctx : Ctx) (a : Nat) :
    0 ≤ (compute_debit_credit_balance convert allLines selfIds ctx a).1
    ∧ 0 ≤ (compute_debit_credit_balance convert allLines selfIds ctx a).2.1 := by
  constructor
  · simp only [compute_debit_credit_balance]
    exact abs_nonneg _
  · simp only [compute_debit_credit_balance]
    rw [balance_fold_snd]
    have hmem : ∀ x ∈ posAmounts convert (matchedLines allLines selfIds ctx) a, (0:ℚ) ≤ x := by
      intro x hx
      unfold posAmounts at hx
      obtain ⟨l, hl, rfl⟩ := List.mem_map.mp hx
      have hf := List.of_mem_filter hl
      simp at hf
      exact hf.2
    simpa using List.sum_nonneg hmem

/-! ### The remaining model operations -/

/-- Claim C2: the computed complete name is the parent's complete name,
a separator, and the group's own name; just the name for a root group. -/
theorem compute_complete_name_spec :
    (∀ nm : String, compute_complete_name (Group.root nm) = nm)
    ∧ ∀ (nm : String) (p : Group),
        compute_complete_name (Group.child nm p)
          = compute_complete_name p ++ " / " ++ nm :=
  ⟨fun _ => rfl, fun _ _ => rfl⟩

/-- The company check passes exactly when every line whose account has a
company set carries that same company. -/
theorem check_company_id_ok_iff (lines : List CLine) :
    check_company_id lines = Except.ok () ↔
      ∀ l ∈ lines, ∀ c, l.account_company_id = some c → l.company_id = c := by
  induction lines with
  | nil => simp [check_company_id]
  | cons l rest ih =>
      cases hac : l.account_company_id with
      | none => simp [check_company_id, hac, ih]
      | some c =>
          by_cases hne : l.company_id = c
          · simp [check_company_id, hac, hne, ih]
          · simp [check_company_id, hac, hne, ih]

/-- Claim C3: a create or write leaving a line's company different from its
account's set company raises a ValidationError and aborts; when the account
has no company or the companies agree, the constraint passes. -/
theorem check_company_id_spec (lines : List CLine) :
    ((∃ l ∈ lines, ∃ c, l.account_company_id = some c ∧ l.company_id ≠ c) →
      ∃ msg, write_lines lines = Except.error msg)
    ∧ ((∀ l ∈ lines, ∀ c, l.account_company_id = some c → l.company_id = c) →
      write_lines lines = Except.ok lines) := by
  constructor
  · intro hex
    cases hw : write_lines lines with
    | error e => exact ⟨e, rfl⟩
    | ok v =>
        exfalso
        unfold write_lines at hw
        cases hch : check_company_id lines with
        | error e => rw [hch] at hw; cases hw
        | ok u =>
            cases u
            have hall := (check_company_id_ok_iff lines).mp hch
            obtain ⟨l, hl, c, hc, hne⟩ := hex
            exact hne (hall l hl c hc)
  · intro hall
    unfold write_lines
    rw [(check_company_id_ok_iff lines).mpr hall]

/-- Witness for claim C3 at concrete inputs: a line of company 2 on an
account of company 1 is rejected; a line of company 1 on the same account is
accepted. -/
theorem check_company_id_spec_witness :
    ((∃ l ∈ [(⟨2, some 1⟩ : CLine)], ∃ c, l.account_company_id = some c ∧ l.company_id ≠ c)
      ∧ ∃ msg, write_lines [(⟨2, some 1⟩ : CLine)] = Except.error msg)
    ∧ (∀ l ∈ [(⟨1, some 1⟩ : CLine)], ∀ c, l.account_company_id = some c → l.company_id = c)
      ∧ write_lines [(⟨1, some 1⟩ : CLine)] = Except.ok [(⟨1, some 1⟩ : CLine)] :=
  ⟨⟨⟨⟨2, some 1⟩, by simp, 1, rfl, by decide⟩,
    (check_company_id_spec [⟨2, some 1⟩]).1 ⟨⟨2, some 1⟩, by simp, 1, rfl, by decide⟩⟩,
   by decide,
   (check_company_id_spec [⟨1, some 1⟩]).2 (by decide)⟩

/-- Claim C4: creating a distribution with percentage `p` succeeds exactly
when `0 ≤ p ≤ 100` (the data-store check); 50 is accepted, 101 is rejected. -/
theorem create_distribution_spec :
    (∀ (aid : Nat) (p : ℚ) (tid : Nat),
      (∃ d, create_distribution aid p tid = Except.ok d) ↔ (0 ≤ p ∧ p ≤ 100))
    ∧ (∃ d, create_distribution 1 50 1 = Except.ok d)
    ∧ create_distribution 1 101 1
      = Except.error
          "The percentage of an analytic distribution should be between 0 and 100." := by
  refine ⟨fun aid p tid => ?_, ?_, by norm_num [create_distribution, check_percentage]⟩
  · unfold create_distribution check_percentage
    by_cases h0 : 0 ≤ p <;> by_cases h1 : p ≤ 100 <;> simp [h0, h1]
  · exact ⟨⟨1, 50, 1⟩, by norm_num [create_distribution, check_percentage]⟩

/-- Claim C5: name_get labels an account as "[code] name", omitting the
bracketed part when the code is absent (falsy), and appends " - " and the
commercial partner name when a partner is linked. -/
theorem name_get_spec :
    (∀ a : Account,
      name_get a
        = (a.id,
           (if truthyStr a.code then "[" ++ a.code.getD "" ++ "] " else "") ++ a.name
             ++ (match a.partner with
                 | some p => " - " ++ p.commercial_partner_name
                 | none => "")))
    ∧ (name_get ⟨1, "Sales", some "X1", some ⟨5, "Acme", "Acme"⟩⟩).2 = "[X1] Sales - Acme"
    ∧ (name_get ⟨2, "Sales", none, none⟩).2 = "Sales" := by
  refine ⟨fun a => ?_, rfl, rfl⟩
  obtain ⟨i, nm, code, partner⟩ := a
  by_cases hc : truthyStr code <;> cases partner <;>
    simp [name_get, hc, String.append_assoc]

/-- Claim C10: a line created without an explicit user gets the context's
user id when present, otherwise the acting user's id. -/
theorem default_user_spec :
    (∀ u e : Nat, create_line_user none (some u) e = u)
    ∧ ∀ e : Nat, create_line_user none none e = e :=
  ⟨fun _ _ => rfl, fun _ => rfl⟩

/-- The effective search predicate, written over the leaf semantics. -/
theorem nameSearchMatch_eq (opMatch : String → String → String → Bool)
    (allPartners : List Partner) (nm operator : String) (limit : Nat) (a : Account) :
    nameSearchMatch opMatch allPartners nm operator limit a
      = (evalATerm opMatch (ATerm.codeMatch operator nm) a
         || evalATerm opMatch (ATerm.nameMatch operator nm) a
         || evalATerm opMatch (ATerm.partnerIn
              (((allPartners.filter fun p => opMatch operator p.name nm).take limit).map
                Partner.id)) a) := by
  obtain ⟨ai, an, acode, apart⟩ := a
  cases acode <;> cases apart <;> simp [nameSearchMatch, evalATerm]

/-- A partner-membership leaf over the empty id list matches nothing. -/
theorem evalATerm_partnerIn_nil (opMatch : String → String → String → Bool) (a : Account) :
    evalATerm opMatch (ATerm.partnerIn []) a = false := by
  obtain ⟨ai, an, acode, apart⟩ := a
  cases apart <;> simp [evalATerm]

/-- Claim C6: for a comparison operator outside the supported set,
name_search delegates to the framework's default lookup instead of erroring;
for a supported operator it returns, up to the result limit, the accounts
whose code or name matches or whose linked partner is among the partners
found by the (likewise capped) partner sub-lookup. -/
theorem name_search_spec :
    (∀ (opMatch : String → String → String → Bool) (accounts : List Account)
        (allPartners : List Partner) (nm : String) (args : List (DElem ATerm))
        (operator : String) (limit : Nat),
      operator ∉ ["ilike", "like", "=", "=like", "=ilike"] →
        name_search opMatch accounts allPartners nm args operator limit
          = NameSearchResult.delegated)
    ∧ (∀ (opMatch : String → String → String → Bool) (accounts : List Account)
        (allPartners : List Partner) (nm : String) (args : List (DElem ATerm))
        (operator : String) (limit : Nat),
      operator ∈ ["ilike", "like", "=", "=like", "=ilike"] →
        name_search opMatch accounts allPartners nm args operator limit
          = NameSearchResult.found
              (((accounts.filter fun a =>
                    nameSearchMatch opMatch allPartners nm operator limit a
                      && evalDomain (evalATerm opMatch) args a).take limit).map
                name_get)) := by
  constructor
  · intro opMatch accounts allPartners nm args operator limit h
    unfold name_search
    rw [if_pos h]
  · intro opMatch accounts allPartners nm args operator limit h
    unfold name_search
    rw [if_neg (not_not_intro h)]
    have he : Expr ([DElem.opOr, DElem.term (ATerm.codeMatch operator nm),
        DElem.term (ATerm.nameMatch operator nm)] : List (DElem ATerm)) :=
      Expr.or (Expr.term _) (Expr.term _)
    have hsh : ([DElem.opOr, DElem.term (ATerm.codeMatch operator nm),
        DElem.term (ATerm.nameMatch operator nm)] : List (DElem ATerm))
        = DElem.opOr :: [DElem.term (ATerm.codeMatch operator nm)]
          ++ [DElem.term (ATerm.nameMatch operator nm)] := rfl
    by_cases hp : (allPartners.filter fun p => opMatch operator p.name nm).take limit = []
    · have hev : ∀ a : Account,
          evalDomain (evalATerm opMatch)
              ([DElem.opOr, DElem.term (ATerm.codeMatch operator nm),
                DElem.term (ATerm.nameMatch operator nm)] ++ args) a
            = (nameSearchMatch opMatch allPartners nm operator limit a
                && evalDomain (evalATerm opMatch) args a) := by
        intro a
        rw [evalDomain_append_expr (evalATerm opMatch) he args a, hsh,
          evalDomain_or_expr (evalATerm opMatch) (Expr.term _) (Expr.term _) a,
          evalDomain_term, evalDomain_term, nameSearchMatch_eq, hp]
        rw [List.map_nil, evalATerm_partnerIn_nil]
        simp
      simp only [hp, if_true]
      rw [List.filter_congr fun a _ => hev a]
    · have he2 : Expr (([DElem.opOr] ++ [DElem.opOr, DElem.term (ATerm.codeMatch operator nm),
          DElem.term (ATerm.nameMatch operator nm)]) ++ [DElem.term (ATerm.partnerIn
            (((allPartners.filter fun p => opMatch operator p.name nm).take limit).map
              Partner.id))]) :=
        Expr.or he (Expr.term _)
      have hev : ∀ a : Account,
          evalDomain (evalATerm opMatch)
              ((([DElem.opOr] ++ [DElem.opOr, DElem.term (ATerm.codeMatch operator nm),
                  DElem.term (ATerm.nameMatch operator nm)]) ++ [DElem.term (ATerm.partnerIn
                    (((allPartners.filter fun p => opMatch operator p.name nm).take limit).map
                      Partner.id))]) ++ args) a
            = (nameSearchMatch opMatch allPartners nm operator limit a
                && evalDomain (evalATerm opMatch) args a) := by
        intro a
        rw [evalDomain_append_expr (evalATerm opMatch) he2 args a]
        have hsh2 : (([DElem.opOr] ++ [DElem.opOr, DElem.term (ATerm.codeMatch operator nm),
            DElem.term (ATerm.nameMatch operator nm)]) ++ [DElem.term (ATerm.partnerIn
              (((allPartners.filter fun p => opMatch operator p.name nm).take limit).map
                Partner.id))])
            = DElem.opOr :: [DElem.opOr, DElem.term (ATerm.codeMatch operator nm),
                DElem.term (ATerm.nameMatch operator nm)]
              ++ [DElem.term (ATerm.partnerIn
                  (((allPartners.filter fun p => opMatch operator p.name nm).take limit).map
                    Partner.id))] := rfl
        rw [hsh2, evalDomain_or_expr (evalATerm opMatch) he (Expr.term _) a, hsh,
          evalDomain_or_expr (evalATerm opMatch) (Expr.term _) (Expr.term _) a,
          evalDomain_term, evalDomain_term, evalDomain_term, nameSearchMatch_eq]
      simp only []
      rw [if_neg hp, List.filter_congr fun a _ => hev a]

/-- Witness for claim C6 at concrete inputs: the unsupported operator
child_of is delegated; a supported operator returns the filtered accounts. -/
theorem name_search_spec_witness :
    ("child_of" ∉ ["ilike", "like", "=", "=like", "=ilike"]
      ∧ name_search (fun _ f q => f == q) [⟨1, "Sales", none, none⟩] [] "Sales" []
          "child_of" 10 = NameSearchResult.delegated)
    ∧ ("=" ∈ ["ilike", "like", "=", "=like", "=ilike"]
      ∧ name_search (fun _ f q => f == q) [⟨1, "Sales", none, none⟩] [] "Sales" []
          "=" 10
        = NameSearchResult.found
            ((([(⟨1, "Sales", none, none⟩ : Account)].filter fun a =>
                  nameSearchMatch (fun _ f q => f == q) [] "Sales" "=" 10 a
                    && evalDomain (evalATerm fun _ f q => f == q) [] a).take 10).map
              name_get)) :=
  ⟨⟨by decide,
    name_search_spec.1 (fun _ f q => f == q) [⟨1, "Sales", none, none⟩] [] "Sales" []
      "child_of" 10 (by decide)⟩,
   ⟨by decide,
    name_search_spec.2 (fun _ f q => f == q) [⟨1, "Sales", none, none⟩] [] "Sales" []
      "=" 10 (by decide)⟩⟩

end Analytic
